import Mathlib

/-!
Verification of the alpaca source-based package build engine against its
design specification.

The development shallowly embeds the Python sources:

* `alpaca/common/repository_cache.py` — recipe lookup across configured
  repositories and streams (`RepositoryCache.find_recipe`,
  `RepositoryCache._find_recipe_by_name`);
* `alpaca/recipes/recipe_description.py` — the `RecipeDescription` record and
  its construction-time invariant;
* `alpaca/recipes/recipe_context.py` — the build pipeline
  (`RecipeContext.create_package` and its stage functions), field extraction
  from recipe scripts (`_read_package_variable`) and the build fingerprint
  (`_compute_binary_hash`).

Python strings are embedded as `List Char` (named `Str` below).  Filesystem
and subprocess effects are abstracted as explicit environment records
(`FileSystem`, `BuildWorld`, `ShellContext`); exceptions become `Except` or
an explicit error component; the sequence of external effects is recorded as
an event trace.

The version parsing/selection class `RecipeVersion`
(`alpaca/recipes/recipe_version.py`) is not part of the available sources —
only its caller `repository_cache.py` is — so it is modelled from the
specification text (marked `Modelled from the spec:` below).
-/

namespace Alpaca

/-- A Python string, embedded as a list of characters. -/
abbrev Str := List Char

/-- Python `s.split(sep)` for a single-character separator: splits into the
(always non-empty) list of chunks between occurrences of `sep`. -/
def splitOn (sep : Char) : Str → List Str
  | [] => [[]]
  | c :: cs =>
    match splitOn sep cs with
    | [] => [[]]
    | g :: gs => if c = sep then [] :: g :: gs else (c :: g) :: gs

/-- Python `s.endswith(suf)`. -/
def endsWith (suf s : Str) : Bool :=
  decide (s.length ≥ suf.length) && decide (s.drop (s.length - suf.length) = suf)

/-- Python `s[n:]`. -/
def strDrop (n : Nat) (s : Str) : Str := s.drop n

/-- Python `s[:-n]` for `n > 0`: everything but the last `n` characters. -/
def dropLastN (n : Nat) (s : Str) : Str := s.take (s.length - n)

/-- Python `os.path.join(a, b)` in the simple relative-component case used by
the cache and workspace code. -/
def pathJoin (a b : Str) : Str := a ++ '/' :: b

/-- Python `os.path.basename(s)`: the part after the last slash. -/
def basename (s : Str) : Str := (splitOn '/' s).getLastD []

/-- Decimal digits of a natural number, used when embedding Python f-strings
that interpolate integers. -/
def natToStr (n : Nat) : Str := (Nat.toDigits 10 n)

/-! ### Version values

`RecipeVersion` lives in `alpaca/recipes/recipe_version.py`, which is not
among the available sources; the definitions in this section are modelled
from the specification (§2 VersionValue, §4.1). -/

/-- Modelled from the spec: one dot-separated segment of a version string,
"each numeric or alphanumeric" (§3 VersionValue). -/
inductive Segment
  | num (n : Nat)
  | alpha (s : Str)
deriving DecidableEq

/-- Numeric test for a segment string: non-empty and all decimal digits. -/
def strToNat? (s : Str) : Option Nat :=
  if s ≠ [] ∧ s.all (fun c => decide (48 ≤ c.toNat) && decide (c.toNat ≤ 57)) then
    some (s.foldl (fun acc c => acc * 10 + (c.toNat - 48)) 0)
  else none

/-- Modelled from the spec: parse one segment, numeric when it is a number,
alphanumeric otherwise. -/
def parseSegment (s : Str) : Segment :=
  match strToNat? s with
  | some n => .num n
  | none => .alpha s

/-- Modelled from the spec: a parsed version value, keeping "the original
string" (used for the deterministic tie-break, §4.1) together with the parsed
dot-separated segments. -/
structure RecipeVersion where
  original : Str
  segments : List Segment
deriving DecidableEq

/-- Modelled from the spec: `parse(text)` — split on dots and parse each
segment. -/
def RecipeVersion.from_string (s : Str) : RecipeVersion :=
  ⟨s, (splitOn '.' s).map parseSegment⟩

/-- Three-way comparison of naturals. -/
def cmpNat (a b : Nat) : Ordering :=
  if a < b then .lt else if b < a then .gt else .eq

/-- Three-way comparison of characters by code point, as Python compares
characters. -/
def cmpChar (a b : Char) : Ordering := cmpNat a.toNat b.toNat

/-- Lexicographic three-way comparison of lists from an element comparison,
with a proper prefix ordered first — Python's comparison of strings and the
natural order on dotted version segments. -/
def cmpLex (c : α → α → Ordering) : List α → List α → Ordering
  | [], [] => .eq
  | [], _ :: _ => .lt
  | _ :: _, [] => .gt
  | a :: as, b :: bs =>
    match c a b with
    | .eq => cmpLex c as bs
    | o => o

/-- Python string comparison (lexicographic by code point). -/
def cmpStr (a b : Str) : Ordering := cmpLex cmpChar a b

/-- Modelled from the spec: segment comparison.  Numeric segments compare
numerically, alphanumeric ones lexicographically; a numeric segment orders
before an alphanumeric one (a fixed cross-kind rule making the order total,
§3: "Total order must be consistent and transitive"). -/
def Segment.cmp : Segment → Segment → Ordering
  | .num a, .num b => cmpNat a b
  | .num _, .alpha _ => .lt
  | .alpha _, .num _ => .gt
  | .alpha a, .alpha b => cmpStr a b

/-- Modelled from the spec: `compare(a, b)` — lexicographic comparison of the
segment lists ("equality must match the original string's semantic identity,
not necessarily its literal spelling"). -/
def RecipeVersion.cmp (a b : RecipeVersion) : Ordering :=
  cmpLex Segment.cmp a.segments b.segments

/-- Modelled from the spec: semantic equality of two version values — equal
parsed segments, independent of the literal spelling.  This is the `==` used
by `_find_recipe_by_name` when matching the selected version back to a
candidate. -/
def RecipeVersion.semEq (a b : RecipeVersion) : Bool :=
  decide (a.segments = b.segments)

/-- Modelled from the spec: the selection key — semantic comparison first,
and on semantic ties the lexicographic order of the original strings
("preferring the candidate with the lexicographically later original string,
to keep the rule deterministic", §4.1). -/
def RecipeVersion.keyCmp (a b : RecipeVersion) : Ordering :=
  match RecipeVersion.cmp a b with
  | .eq => cmpStr a.original b.original
  | o => o

/-- Modelled from the spec: of two candidates, the preferred (greater under
`keyCmp`) one; the left argument is kept on an exact tie. -/
def pickBetter (a b : RecipeVersion) : RecipeVersion :=
  if RecipeVersion.keyCmp a b = .lt then b else a

/-- One step of maximum selection over an optional running best. -/
def pickBetterO : Option RecipeVersion → RecipeVersion → Option RecipeVersion
  | none, v => some v
  | some a, v => some (pickBetter a v)

/-- Modelled from the spec: "select the maximum VersionValue among
candidates" — `none` on an empty candidate list. -/
def selectMax (versions : List RecipeVersion) : Option RecipeVersion :=
  versions.foldl pickBetterO none

/-- Modelled from the spec: the requested string "is itself split into
segments". -/
def requestSegments (r : Str) : List Segment :=
  (splitOn '.' r).map parseSegment

/-- Modelled from the spec: "a candidate qualifies if its leading segments
are pairwise equal to the requested segments". -/
def leadingSegmentsMatch : List Segment → List Segment → Bool
  | [], _ => true
  | _ :: _, [] => false
  | a :: as, b :: bs => decide (a = b) && leadingSegmentsMatch as bs

/-- Modelled from the spec: the candidates compatible with a requested
version string under the prefix-compatibility rule. -/
def qualifyingCandidates (versions : List RecipeVersion) (r : Str) : List RecipeVersion :=
  versions.filter (fun v => leadingSegmentsMatch (requestSegments r) v.segments)

/-- Modelled from the spec: `RecipeVersion.find_closest_version_or_none` —
with no (or an empty) requested version select the maximum candidate;
otherwise select the maximum among the prefix-compatible candidates, `none`
when no candidate qualifies (§4.1 resolution policy). -/
def find_closest_version_or_none (versions : List RecipeVersion)
    (requested_version : Option Str) : Option RecipeVersion :=
  match requested_version with
  | none => selectMax versions
  | some r => if r = [] then selectMax versions else selectMax (qualifyingCandidates versions r)

/-! ### Repository cache (`alpaca/common/repository_cache.py`)

The filesystem is an explicit environment: which paths exist and, for the
recipe directories, the directory listing in iteration order. -/

/-- One entry of `Path.iterdir()`: the entry's filename and whether it is a
regular file. -/
structure DirEntry where
  name : Str
  isFile : Bool
deriving DecidableEq

/-- The filesystem as seen by the repository cache: `os.path.exists` and
`Path.iterdir` in iteration order. -/
structure FileSystem where
  pathExists : Str → Bool
  listDir : Str → List DirEntry

/-- Modelled from the spec: one configured repository reference
(`alpaca/configuration/repository_ref.py` is not among the available
sources).  Only its derived local cache directory matters to lookup:
`get_cache_path(root)` joins the cache root with the ref's derived directory
name. -/
structure RepositoryRef where
  cacheDirName : Str
deriving DecidableEq

/-- Modelled from the spec: the derived local cache directory of a
repository reference. -/
def RepositoryRef.get_cache_path (r : RepositoryRef) (root : Str) : Str :=
  pathJoin root r.cacheDirName

/-- The configuration fields consumed by `RepositoryCache`. -/
structure CacheConfiguration where
  repository_cache_path : Str
  repositories : List RepositoryRef
  package_streams : List Str
  recipe_file_extension : Str

/-- An ephemeral pairing of a parsed version and the recipe file path that
declares it (`_PackageCandidate`). -/
structure PackageCandidate where
  version : RecipeVersion
  path : Str
deriving DecidableEq

/-- The candidate pool gathered by the repository/stream/file loops of
`_find_recipe_by_name` (lines 97–127): for every configured repository and
stream, if the directory `repo_cache/stream/name` exists, every regular file
in it whose name ends with the recipe extension and yields a non-empty
version once `name-` and the extension are stripped becomes a candidate. -/
def gatherCandidates (fs : FileSystem) (cfg : CacheConfiguration) (name : Str) :
    List PackageCandidate :=
  cfg.repositories.flatMap fun repo_ref =>
    cfg.package_streams.flatMap fun stream =>
      let package_path_base :=
        pathJoin (repo_ref.get_cache_path cfg.repository_cache_path) (pathJoin stream name)
      if fs.pathExists package_path_base = false then []
      else
        (fs.listDir package_path_base).filterMap fun entry =>
          if entry.isFile = false then none
          else if endsWith cfg.recipe_file_extension entry.name = false then none
          else
            let version :=
              dropLastN cfg.recipe_file_extension.length (strDrop (name.length + 1) entry.name)
            if version = [] then none
            else some ⟨RecipeVersion.from_string version, pathJoin package_path_base entry.name⟩

/-- Error message raised on a malformed atom (more than one `/`). -/
def invalidFormatMsg : Str :=
  "Invalid package name format. Expected format: <name> or <name>/<version>".data

/-- Error message raised when no repositories are configured. -/
def noReposMsg : Str :=
  "No repositories configured. Please add repositories to the configuration.".data

/-- Embeds `RepositoryCache._find_recipe_by_name` (lines 79–147): split the atom,
gather the candidate pool, select a version with
`find_closest_version_or_none`, and return the first pool candidate whose
version equals the selected one. -/
def _find_recipe_by_name (fs : FileSystem) (cfg : CacheConfiguration) (name : Str) :
    Except Str (Option Str) :=
  let parts := splitOn '/' name
  if parts.length > 2 then .error invalidFormatMsg
  else
    let pname := parts.headD []
    let requested_version : Option Str :=
      if parts.length = 2 then some (parts.getD 1 []) else none
    if cfg.repositories.length = 0 then .error noReposMsg
    else
      let candidates := gatherCandidates fs cfg pname
      if candidates.isEmpty then .ok none
      else
        match find_closest_version_or_none (candidates.map PackageCandidate.version)
            requested_version with
        | none => .ok none
        | some version =>
          match candidates.find? (fun c => RecipeVersion.semEq c.version version) with
          | some c => .ok (some c.path)
          | none => .ok none

/-- Error message raised when the repository cache directory is missing. -/
def cacheMissingMsg (cfg : CacheConfiguration) : Str :=
  "Repository cache path ".data ++ cfg.repository_cache_path
    ++ " does not exist. Please run apupdate to create the cache.".data

/-- Embeds `RepositoryCache.find_recipe` (lines 54–77): fail if the cache root is
missing, report "not found" on an empty atom, pass an existing filesystem
path through unchanged, otherwise search by name. -/
def find_recipe (fs : FileSystem) (cfg : CacheConfiguration) (path : Str) :
    Except Str (Option Str) :=
  if fs.pathExists cfg.repository_cache_path = false then .error (cacheMissingMsg cfg)
  else if path = [] then .ok none
  else if fs.pathExists path then .ok (some path)
  else _find_recipe_by_name fs cfg path

/-! Concrete fixtures used to settle the tie-break and empty-repository
claims on explicit inputs. -/

/-- A filesystem with one recipe directory holding two recipe files whose
versions parse equal (`1.0` and `1.00`) but whose filenames differ; the
directory listing iterates the lexicographically earlier filename first. -/
def fsTie : FileSystem where
  pathExists := fun p =>
    decide (p = "/cache".data) || decide (p = "/cache/r1/core/foo".data)
  listDir := fun p =>
    if p = "/cache/r1/core/foo".data then
      [⟨"foo-1.0.recipe".data, true⟩, ⟨"foo-1.00.recipe".data, true⟩]
    else []

/-- One repository, one stream, the `.recipe` extension. -/
def cfgTie : CacheConfiguration where
  repository_cache_path := "/cache".data
  repositories := [⟨"r1".data⟩]
  package_streams := ["core".data]
  recipe_file_extension := ".recipe".data

/-- A filesystem in which only the cache root exists. -/
def fsEmptyRepos : FileSystem where
  pathExists := fun p => decide (p = "/cache".data)
  listDir := fun _ => []

/-- A configuration with no repositories at all. -/
def cfgEmptyRepos : CacheConfiguration where
  repository_cache_path := "/cache".data
  repositories := []
  package_streams := ["core".data]
  recipe_file_extension := ".recipe".data

/-! ### Recipe descriptions (`alpaca/recipes/recipe_description.py`) -/

/-- The structured result of parsing one recipe. -/
structure RecipeDescription where
  name : Str
  version : Str
  release : Str
  url : Str
  licenses : List Str
  dependencies : List Str
  build_dependencies : List Str
  sources : List Str
  sha256sums : List Str
  available_options : List Str

/-- The message of the `ValueError` raised on mismatched source/checksum
counts. -/
def lengthMismatchMsg (nsources nsums : Nat) : Str :=
  "Number of sources (".data ++ natToStr nsources
    ++ ") does not match number of sha256sums (".data ++ natToStr nsums ++ ")".data

/-- Embeds `RecipeDescription.__init__`: constructing a description raises a
`ValueError` when the number of sources differs from the number of
sha256sums, so the caller never receives an object; embedded as a fallible
constructor. -/
def RecipeDescription.init (name version release url : Str)
    (licenses dependencies build_dependencies sources sha256sums available_options :
      List Str) : Except Str RecipeDescription :=
  if sources.length ≠ sha256sums.length then
    .error (lengthMismatchMsg sources.length sha256sums.length)
  else
    .ok ⟨name, version, release, url, licenses, dependencies, build_dependencies,
      sources, sha256sums, available_options⟩

/-! ### Recipe field extraction (`RecipeContext._read_package_variable`)

The generated bash script sources the recipe and then branches on whether a
function (`declare -f`) and/or a variable (`declare -p`) of the requested
name is defined.  A sourced recipe script is embedded as the two partial
maps it defines: function name to the text the function emits, and variable
name to the list of its elements (a scalar being a one-element list). -/

/-- A sourced recipe script as observed through `declare -f` / `declare -p`:
which functions and variables it defines, and what they produce. -/
structure ShellContext where
  functions : Str → Option Str
  vars : Str → Option (List Str)

/-- The error emitted when a recipe defines both a variable and a function of
the same name. -/
def ambiguousFieldMsg (variable_name : Str) : Str :=
  "Error: both a variable and a function named ".data ++ variable_name
    ++ " are defined".data

/-- The error emitted when a recipe defines neither a variable nor a function
of the requested name. -/
def missingFieldMsg (variable_name : Str) : Str :=
  "Error: neither a variable nor a function named ".data ++ variable_name
    ++ " is defined".data

/-- The lines printed by `printf` for the variable reference: every element
for an array reference, only the first for a scalar reference. -/
def varRefExpansion (is_array : Bool) (vals : List Str) : Str :=
  List.intercalate ['\n'] (if is_array then vals else vals.take 1)

/-- Embeds `RecipeContext._read_package_variable` (lines 281–300): evaluate the
generated script — ambiguous when both a function and a variable are
defined, the function's output when only the function is, the expanded
variable when only the variable is, and a missing-field error otherwise. -/
def _read_package_variable (ctx : ShellContext) (variable_name : Str) (is_array : Bool) :
    Except Str Str :=
  match ctx.functions variable_name, ctx.vars variable_name with
  | some _, some _ => .error (ambiguousFieldMsg variable_name)
  | some out, none => .ok out
  | none, some vals => .ok (varRefExpansion is_array vals)
  | none, none => .error (missingFieldMsg variable_name)

/-! ### Build fingerprint (`RecipeContext._compute_binary_hash`)

`hashlib.sha256` is embedded as a genuine SHA-256 over byte lists; the
incremental hash object accumulates the bytes fed through `update`, and its
`hexdigest` is the digest of the accumulated buffer, which is the documented
`hashlib` semantics. -/

/-- Word arithmetic modulus of SHA-256 (2^32). -/
def m32 : Nat := 4294967296

/-- 32-bit right rotation. -/
def rotr32 (n x : Nat) : Nat :=
  ((x >>> n) ||| (x <<< (32 - n))) % m32

/-- The 64 SHA-256 round constants. -/
def sha256K : List Nat :=
  [1116352408, 1899447441, 3049323471, 3921009573, 961987163,
   1508970993, 2453635748, 2870763221, 3624381080, 310598401,
   607225278, 1426881987, 1925078388, 2162078206, 2614888103,
   3248222580, 3835390401, 4022224774, 264347078, 604807628,
   770255983, 1249150122, 1555081692, 1996064986, 2554220882,
   2821834349, 2952996808, 3210313671, 3336571891, 3584528711,
   113926993, 338241895, 666307205, 773529912, 1294757372,
   1396182291, 1695183700, 1986661051, 2177026350, 2456956037,
   2730485921, 2820302411, 3259730800, 3345764771, 3516065817,
   3600352804, 4094571909, 275423344, 430227734, 506948616,
   659060556, 883997877, 958139571, 1322822218, 1537002063,
   1747873779, 1955562222, 2024104815, 2227730452, 2361852424,
   2428436474, 2756734187, 3204031479, 3329325298]

/-- The initial SHA-256 hash state. -/
def sha256InitH : List Nat :=
  [1779033703, 3144134277, 1013904242, 2773480762,
   1359893119, 2600822924, 528734635, 1541459225]

/-- Big-endian bytes of a number, `k` bytes wide. -/
def beBytes (k n : Nat) : List Nat :=
  (List.range k).map fun i => (n >>> (8 * (k - 1 - i))) % 256

/-- SHA-256 message padding: a `0x80` byte, zeros to 56 mod 64, and the
64-bit big-endian bit length. -/
def padMessage (msg : List Nat) : List Nat :=
  let padZeros := (64 + 55 - msg.length % 64) % 64
  msg ++ 0x80 :: List.replicate padZeros 0 ++ beBytes 8 (8 * msg.length)

/-- Split a byte list into 64-byte blocks. -/
def toBlocks (l : List Nat) : List (List Nat) :=
  if h : l = [] then []
  else
    have : l.length - 64 < l.length := Nat.sub_lt (List.length_pos.mpr h) (by omega)
    l.take 64 :: toBlocks (l.drop 64)
termination_by l.length

/-- Big-endian 32-bit words of a 64-byte block. -/
def wordsOfBlock (block : List Nat) : List Nat :=
  (List.range 16).map fun i =>
    (block.getD (4 * i) 0) <<< 24 ||| (block.getD (4 * i + 1) 0) <<< 16
      ||| (block.getD (4 * i + 2) 0) <<< 8 ||| block.getD (4 * i + 3) 0

/-- The σ0 message-schedule function. -/
def ssig0 (x : Nat) : Nat := rotr32 7 x ^^^ rotr32 18 x ^^^ (x >>> 3)

/-- The σ1 message-schedule function. -/
def ssig1 (x : Nat) : Nat := rotr32 17 x ^^^ rotr32 19 x ^^^ (x >>> 10)

/-- The Σ0 compression function. -/
def bsig0 (x : Nat) : Nat := rotr32 2 x ^^^ rotr32 13 x ^^^ rotr32 22 x

/-- The Σ1 compression function. -/
def bsig1 (x : Nat) : Nat := rotr32 6 x ^^^ rotr32 11 x ^^^ rotr32 25 x

/-- Extend 16 words to the 64-word message schedule. -/
def extendWords (w16 : List Nat) : List Nat :=
  (List.range 48).foldl
    (fun ws _ =>
      let n := ws.length
      ws ++ [(ssig1 (ws.getD (n - 2) 0) + ws.getD (n - 7) 0
        + ssig0 (ws.getD (n - 15) 0) + ws.getD (n - 16) 0) % m32])
    w16

/-- One round of the SHA-256 compression loop over the working variables. -/
def sha256Round (st : List Nat) (kw : Nat × Nat) : List Nat :=
  let a := st.getD 0 0
  let b := st.getD 1 0
  let c := st.getD 2 0
  let d := st.getD 3 0
  let e := st.getD 4 0
  let f := st.getD 5 0
  let g := st.getD 6 0
  let h := st.getD 7 0
  let ch := (e &&& f) ^^^ ((m32 - 1 - e % m32) &&& g)
  let maj := (a &&& b) ^^^ (a &&& c) ^^^ (b &&& c)
  let t1 := (h + bsig1 e + ch + kw.1 + kw.2) % m32
  let t2 := (bsig0 a + maj) % m32
  [(t1 + t2) % m32, a, b, c, (d + t1) % m32, e, f, g]

/-- Compress one 64-byte block into the running hash state. -/
def sha256Compress (hstate : List Nat) (block : List Nat) : List Nat :=
  let ws := extendWords (wordsOfBlock block)
  let fin := (sha256K.zip ws).foldl (fun st kw => sha256Round st (kw.1, kw.2)) hstate
  (List.range 8).map fun i => (hstate.getD i 0 + fin.getD i 0) % m32

/-- SHA-256 of a byte list, as 32 digest bytes. -/
def sha256Bytes (msg : List Nat) : List Nat :=
  ((toBlocks (padMessage msg)).foldl sha256Compress sha256InitH).flatMap (beBytes 4)

/-- One lowercase hex digit. -/
def hexChar (n : Nat) : Char :=
  if n < 10 then Char.ofNat (48 + n) else Char.ofNat (87 + n)

/-- Lowercase hex string of a byte list, as `hexdigest` renders digests. -/
def hexOfBytes (bytes : List Nat) : Str :=
  bytes.flatMap fun b => [hexChar (b / 16), hexChar (b % 16)]

/-- UTF-8 encoding of one character (code point to bytes). -/
def utf8EncodeChar (c : Char) : List Nat :=
  let n := c.toNat
  if n < 0x80 then [n]
  else if n < 0x800 then [0xc0 ||| (n >>> 6), 0x80 ||| (n &&& 0x3f)]
  else if n < 0x10000 then
    [0xe0 ||| (n >>> 12), 0x80 ||| ((n >>> 6) &&& 0x3f), 0x80 ||| (n &&& 0x3f)]
  else
    [0xf0 ||| (n >>> 18), 0x80 ||| ((n >>> 12) &&& 0x3f),
     0x80 ||| ((n >>> 6) &&& 0x3f), 0x80 ||| (n &&& 0x3f)]

/-- Python `str.encode("utf-8")`. -/
def utf8Encode (s : Str) : List Nat := s.flatMap utf8EncodeChar

/-- A `hashlib.sha256()` object: the bytes absorbed so far. -/
structure HashObject where
  buffer : List Nat

/-- Embeds `hashlib.sha256()` with nothing absorbed. -/
def HashObject.new : HashObject := ⟨[]⟩

/-- Embeds `hash_object.update(data)`: absorb more bytes; the digest of a sequence
of updates is the digest of the concatenation. -/
def HashObject.update (h : HashObject) (data : List Nat) : HashObject :=
  ⟨h.buffer ++ data⟩

/-- Embeds `hash_object.hexdigest()`. -/
def HashObject.hexdigest (h : HashObject) : Str :=
  hexOfBytes (sha256Bytes h.buffer)

/-- Embeds `RecipeContext._compute_binary_hash` (lines 258–279): sha256 over the
UTF-8 bytes of the recipe script text followed by the UTF-8 bytes of the
target architecture string, rendered as a hex digest. -/
def _compute_binary_hash (package_script target_architecture : Str) : Str :=
  ((HashObject.new.update (utf8Encode package_script)).update
    (utf8Encode target_architecture)).hexdigest

/-! ### Build pipeline (`RecipeContext.create_package` and stages)

External effects (downloads, the archive test, subprocess hook exit codes,
file hashes) are an explicit `BuildWorld`; the filesystem state relevant to
the workspace lifecycle is the existence of the workspace root and its three
sibling directories; every external action is recorded as an event.  The
subprocess/downloader/hash primitives (`shell_command.py`, `hash.py`,
`file_downloader.py`) are not among the available sources; the `BuildWorld`
fields model their observable contracts from the spec (§6 consumed
collaborator interfaces). -/

/-- One observable external action of the pipeline. -/
inductive BuildEvent
  | workspaceCreated
  | sourceFetched (source : Str)
  | sourceCopied (source : Str)
  | tarExtracted (file : Str)
  | hookCalled (functionName : Str)
  | workspaceDeleted
deriving DecidableEq

/-- The configuration fields consumed by the pipeline. -/
structure BuildConfiguration where
  package_workspace_path : Str
  package_delete_workspace : Bool
  keep_build_directory : Bool
  skip_package_check : Bool

/-- The external world: computed file hashes, the archive test, URL-scheme
detection, plain-file detection, and hook script exit status. -/
structure BuildWorld where
  fileHash : Str → Str
  isTarfile : Str → Bool
  hasUrlScheme : Str → Bool
  isFilePath : Str → Bool
  hookExitOk : Str → Bool

/-- The mutable facts the pipeline reads and writes: which workspace
directories exist, plus the trace of external actions so far. -/
structure BuildState where
  workspaceExists : Bool
  sourceDirExists : Bool
  buildDirExists : Bool
  packageDirExists : Bool
  events : List BuildEvent

/-- An initial pipeline state with an empty trace. -/
def BuildState.initial (ws src bld pkg : Bool) : BuildState :=
  ⟨ws, src, bld, pkg, []⟩

/-- Append one event to the trace. -/
def BuildState.log (st : BuildState) (e : BuildEvent) : BuildState :=
  { st with events := st.events ++ [e] }

/-- Path `source/` under the workspace root. -/
def source_directory (cfg : BuildConfiguration) : Str :=
  pathJoin cfg.package_workspace_path "source".data

/-- Path `build/` under the workspace root. -/
def build_directory (cfg : BuildConfiguration) : Str :=
  pathJoin cfg.package_workspace_path "build".data

/-- Path `package/` under the workspace root. -/
def package_directory (cfg : BuildConfiguration) : Str :=
  pathJoin cfg.package_workspace_path "package".data

/-- Embeds `RecipeContext._create_workspace_directories` (lines 96–111): a
pre-existing workspace root is fatal unless deletion was requested, in which
case it is removed first; then the root and the three stage directories are
created. -/
def _create_workspace_directories (cfg : BuildConfiguration) (st : BuildState) :
    Option Str × BuildState :=
  if st.workspaceExists ∧ cfg.package_delete_workspace = false then
    (some ("Workspace ".data ++ cfg.package_workspace_path ++ " must not exist.".data), st)
  else
    (none,
      ({ st with
          workspaceExists := true
          sourceDirExists := true
          buildDirExists := true
          packageDirExists := true }).log .workspaceCreated)

/-- Embeds `RecipeContext._call_script_function` (lines 302–338): the recipe script
is sourced and the named function invoked (or skipped) inside one
subprocess; with `throw_on_error` a non-zero exit becomes an exception. -/
def _call_script_function (world : BuildWorld) (function_name : Str) (st : BuildState) :
    Option Str × BuildState :=
  let st1 := st.log (.hookCalled function_name)
  if world.hookExitOk function_name then (none, st1)
  else (some ("Script function ".data ++ function_name ++ " failed".data), st1)

/-- Embeds `RecipeContext._download_source_file` (lines 375–412): resolve the source
as a URL, an existing path, or a path relative to the recipe directory
(silently falling through when none applies), then require the computed hash
of the materialized file to equal the declared checksum. -/
def _download_source_file (world : BuildWorld) (cfg : BuildConfiguration)
    (recipe_directory source sha256sum : Str) (st : BuildState) :
    Except Str Str × BuildState :=
  let st1 :=
    if world.hasUrlScheme source then st.log (.sourceFetched source)
    else if world.isFilePath source then st.log (.sourceCopied source)
    else if world.isFilePath (pathJoin recipe_directory source) then
      st.log (.sourceCopied source)
    else st
  let file_path := pathJoin (source_directory cfg) (basename source)
  if world.fileHash file_path ≠ sha256sum then
    (.error ("Source ".data ++ source ++ " hash mismatch. Expected ".data ++ sha256sum), st1)
  else (.ok file_path, st1)

/-- The `for source, sha256sum in zip(...)` loop of `_handle_sources`
(lines 123–128): materialize and verify each source in order, extracting any
recognized archive, stopping at the first failure. -/
def sourcePairsLoop (world : BuildWorld) (cfg : BuildConfiguration)
    (recipe_directory : Str) (pairs : List (Str × Str)) (st : BuildState) :
    Option Str × BuildState :=
  match pairs with
  | [] => (none, st)
  | (source, sha256sum) :: rest =>
    match _download_source_file world cfg recipe_directory source sha256sum st with
    | (.error e, st1) => (some e, st1)
    | (.ok filename, st1) =>
      let st2 := if world.isTarfile filename then st1.log (.tarExtracted filename) else st1
      sourcePairsLoop world cfg recipe_directory rest st2

/-- Embeds `RecipeContext._handle_sources` (lines 113–133): re-check the
source/checksum pairing invariant, return immediately when there are no
sources, otherwise run the materialization loop and then the optional
`handle_sources` hook. -/
def _handle_sources (world : BuildWorld) (cfg : BuildConfiguration)
    (desc : RecipeDescription) (recipe_directory : Str) (st : BuildState) :
    Option Str × BuildState :=
  if desc.sources.length ≠ desc.sha256sums.length then
    (some (lengthMismatchMsg desc.sources.length desc.sha256sums.length), st)
  else if desc.sources.length = 0 then (none, st)
  else
    match sourcePairsLoop world cfg recipe_directory
        (desc.sources.zip desc.sha256sums) st with
    | (some e, st1) => (some e, st1)
    | (none, st1) => _call_script_function world "handle_sources".data st1

/-- Embeds `RecipeContext._handle_build` (lines 135–146): run the optional
`handle_build` hook in `build/`. -/
def _handle_build (world : BuildWorld) (st : BuildState) : Option Str × BuildState :=
  _call_script_function world "handle_build".data st

/-- Embeds `RecipeContext._handle_check` (lines 148–168): skipped entirely by
configuration, otherwise run the optional `handle_check` hook. -/
def _handle_check (world : BuildWorld) (cfg : BuildConfiguration) (st : BuildState) :
    Option Str × BuildState :=
  if cfg.skip_package_check then (none, st)
  else _call_script_function world "handle_check".data st

/-- Embeds `RecipeContext._handle_package` (lines 170–207): run the optional
`handle_package` hook with the manifest/fingerprint/metadata/archive
post-script appended, in one subprocess. -/
def _handle_package (world : BuildWorld) (st : BuildState) : Option Str × BuildState :=
  _call_script_function world "handle_package".data st

/-- Embeds `RecipeContext._delete_workspace_directories` (lines 209–228): nothing to
do when the workspace root does not exist; keep everything when configured
to; otherwise remove the workspace tree. -/
def _delete_workspace_directories (cfg : BuildConfiguration) (st : BuildState) :
    Option Str × BuildState :=
  if st.workspaceExists = false then (none, st)
  else if cfg.keep_build_directory then (none, st)
  else
    (none,
      ({ st with
          workspaceExists := false
          sourceDirExists := false
          buildDirExists := false
          packageDirExists := false }).log .workspaceDeleted)

/-- Sequence two pipeline steps, stopping at the first failure. -/
def andThen (r : Option Str × BuildState) (f : BuildState → Option Str × BuildState) :
    Option Str × BuildState :=
  match r with
  | (some e, st) => (some e, st)
  | (none, st) => f st

/-- The `try` block of `RecipeContext.create_package`: the five stage calls
in order, stopping at the first failure. -/
def createPackageBody (world : BuildWorld) (cfg : BuildConfiguration)
    (desc : RecipeDescription) (recipe_directory : Str) (st : BuildState) :
    Option Str × BuildState :=
  andThen (andThen (andThen (andThen
    (_create_workspace_directories cfg st)
    (_handle_sources world cfg desc recipe_directory))
    (_handle_build world))
    (_handle_check world cfg))
    (_handle_package world)

/-- Embeds `RecipeContext.create_package` (lines 77–94): the stages inside a `try`,
with `_delete_workspace_directories` in the `finally` running on every exit
path; a stage failure is re-raised after cleanup. -/
def create_package (world : BuildWorld) (cfg : BuildConfiguration)
    (desc : RecipeDescription) (recipe_directory : Str) (st : BuildState) :
    Option Str × BuildState :=
  let body := createPackageBody world cfg desc recipe_directory st
  (body.1, (_delete_workspace_directories cfg body.2).2)

/-! ### Concrete fixtures for witnesses -/

/-- The spec's worked candidate set 2.2.9, 2.3.0, 2.3.5, 2.4.0. -/
def exampleCandidates : List RecipeVersion :=
  ["2.2.9", "2.3.0", "2.3.5", "2.4.0"].map (fun s => RecipeVersion.from_string s.data)

/-- A one-repository configuration over the `core` stream. -/
def cfgOneRepo : CacheConfiguration where
  repository_cache_path := "/cache".data
  repositories := [⟨"r1".data⟩]
  package_streams := ["core".data]
  recipe_file_extension := ".recipe".data

/-- A recipe script defining both a variable and a function named
`version`. -/
def ctxAmbiguous : ShellContext where
  functions := fun n => if n = "version".data then some "1.0".data else none
  vars := fun n => if n = "version".data then some ["2.0".data] else none

/-- A build world in which every hook succeeds and every source file hashes
to the empty digest. -/
def worldAllOk : BuildWorld where
  fileHash := fun _ => []
  isTarfile := fun _ => false
  hasUrlScheme := fun _ => false
  isFilePath := fun _ => false
  hookExitOk := fun _ => true

/-- A build world in which exactly the `handle_build` hook fails. -/
def worldBuildFails : BuildWorld where
  fileHash := fun _ => []
  isTarfile := fun _ => false
  hasUrlScheme := fun _ => false
  isFilePath := fun _ => false
  hookExitOk := fun fn => !(decide (fn = "handle_build".data))

/-- A build world whose computed hash never equals a declared checksum of
`abc`. -/
def worldBadHash : BuildWorld where
  fileHash := fun _ => "zzz".data
  isTarfile := fun _ => false
  hasUrlScheme := fun _ => true
  isFilePath := fun _ => false
  hookExitOk := fun _ => true

/-- Default build settings: clean workspace handling, cleanup on exit. -/
def cfgBuildDefault : BuildConfiguration where
  package_workspace_path := "/ws".data
  package_delete_workspace := false
  keep_build_directory := false
  skip_package_check := false

/-- Build settings with workspace preservation requested. -/
def cfgBuildKeep : BuildConfiguration where
  package_workspace_path := "/ws".data
  package_delete_workspace := false
  keep_build_directory := true
  skip_package_check := false

/-- A description with no sources. -/
def descNoSources : RecipeDescription where
  name := "demo".data
  version := "1.0".data
  release := "1".data
  url := "http://example".data
  licenses := []
  dependencies := []
  build_dependencies := []
  sources := []
  sha256sums := []
  available_options := []

/-- A description declaring one source with checksum `abc`. -/
def descOneSource : RecipeDescription where
  name := "demo".data
  version := "1.0".data
  release := "1".data
  url := "http://example".data
  licenses := []
  dependencies := []
  build_dependencies := []
  sources := ["http://example/src.tar".data]
  sha256sums := ["abc".data]
  available_options := []

/-! ## Order properties of the version comparison -/

theorem cmpNat_eq_iff (a b : Nat) : cmpNat a b = .eq ↔ a = b := by
  unfold cmpNat
  by_cases h1 : a < b <;> by_cases h2 : b < a <;> simp [h1, h2] <;> omega

theorem cmpNat_lt_iff (a b : Nat) : cmpNat a b = .lt ↔ a < b := by
  unfold cmpNat
  by_cases h1 : a < b <;> by_cases h2 : b < a <;> simp [h1, h2] <;> omega

theorem cmpNat_swap (a b : Nat) : (cmpNat a b).swap = cmpNat b a := by
  unfold cmpNat
  by_cases h1 : a < b <;> by_cases h2 : b < a <;>
    simp [h1, h2, Ordering.swap] <;> omega

theorem cmpNat_lt_trans {a b c : Nat} (h1 : cmpNat a b = .lt) (h2 : cmpNat b c = .lt) :
    cmpNat a c = .lt := by
  rw [cmpNat_lt_iff] at h1 h2 ⊢
  omega

theorem cmpChar_eq_iff (a b : Char) : cmpChar a b = .eq ↔ a = b := by
  unfold cmpChar
  rw [cmpNat_eq_iff]
  constructor
  · intro h
    exact Char.eq_of_val_eq (UInt32.eq_of_toBitVec_eq (BitVec.eq_of_toNat_eq h))
  · intro h
    rw [h]

theorem cmpChar_swap (a b : Char) : (cmpChar a b).swap = cmpChar b a := cmpNat_swap _ _

theorem cmpChar_lt_trans {a b c : Char} (h1 : cmpChar a b = .lt) (h2 : cmpChar b c = .lt) :
    cmpChar a c = .lt := cmpNat_lt_trans h1 h2

theorem cmpLex_eq_iff (c : α → α → Ordering) (hc : ∀ a b, c a b = .eq ↔ a = b) :
    ∀ as bs : List α, cmpLex c as bs = .eq ↔ as = bs := by
  intro as
  induction as with
  | nil => intro bs; cases bs <;> simp [cmpLex]
  | cons a as ih =>
    intro bs
    cases bs with
    | nil => simp [cmpLex]
    | cons b bs =>
      cases h : c a b with
      | lt =>
        simp only [cmpLex, h]
        constructor
        · intro hh; cases hh
        · intro hh
          injection hh with h1 h2
          rw [(hc a b).mpr h1] at h
          cases h
      | eq =>
        have hab : a = b := (hc a b).mp h
        subst hab
        simp [cmpLex, h, ih]
      | gt =>
        simp only [cmpLex, h]
        constructor
        · intro hh; cases hh
        · intro hh
          injection hh with h1 h2
          rw [(hc a b).mpr h1] at h
          cases h

theorem cmpLex_swap (c : α → α → Ordering) (hc : ∀ a b, (c a b).swap = c b a) :
    ∀ as bs : List α, (cmpLex c as bs).swap = cmpLex c bs as := by
  intro as
  induction as with
  | nil => intro bs; cases bs <;> simp [cmpLex, Ordering.swap]
  | cons a as ih =>
    intro bs
    cases bs with
    | nil => simp [cmpLex, Ordering.swap]
    | cons b bs =>
      cases h : c a b with
      | lt =>
        have hba : c b a = .gt := by rw [← hc a b, h]; rfl
        simp [cmpLex, h, hba, Ordering.swap]
      | eq =>
        have hba : c b a = .eq := by rw [← hc a b, h]; rfl
        simp only [cmpLex, h, hba]
        exact ih bs
      | gt =>
        have hba : c b a = .lt := by rw [← hc a b, h]; rfl
        simp [cmpLex, h, hba, Ordering.swap]

theorem cmpLex_cons_lt_iff (c : α → α → Ordering) (a b : α) (as bs : List α) :
    cmpLex c (a :: as) (b :: bs) = .lt ↔
      c a b = .lt ∨ (c a b = .eq ∧ cmpLex c as bs = .lt) := by
  cases h : c a b <;> simp [cmpLex, h]

theorem cmpLex_lt_trans (c : α → α → Ordering) (hceq : ∀ a b, c a b = .eq ↔ a = b)
    (hct : ∀ {a b d : α}, c a b = .lt → c b d = .lt → c a d = .lt) :
    ∀ as bs cs : List α, cmpLex c as bs = .lt → cmpLex c bs cs = .lt →
      cmpLex c as cs = .lt := by
  intro as
  induction as with
  | nil =>
    intro bs cs h1 h2
    cases bs with
    | nil => exact h2
    | cons b bs =>
      cases cs with
      | nil => simp [cmpLex] at h2
      | cons c0 cs => simp [cmpLex]
  | cons a as ih =>
    intro bs cs h1 h2
    cases bs with
    | nil => simp [cmpLex] at h1
    | cons b bs =>
      cases cs with
      | nil => simp [cmpLex] at h2
      | cons c0 cs =>
        rw [cmpLex_cons_lt_iff] at h1 h2 ⊢
        rcases h1 with h1 | ⟨h1e, h1t⟩
        · rcases h2 with h2 | ⟨h2e, h2t⟩
          · exact Or.inl (hct h1 h2)
          · have : b = c0 := (hceq b c0).mp h2e
            subst this
            exact Or.inl h1
        · have : a = b := (hceq a b).mp h1e
          subst this
          rcases h2 with h2 | ⟨h2e, h2t⟩
          · exact Or.inl h2
          · have : a = c0 := (hceq a c0).mp h2e
            subst this
            exact Or.inr ⟨h2e, ih bs cs h1t h2t⟩

theorem cmpStr_eq_iff (a b : Str) : cmpStr a b = .eq ↔ a = b :=
  cmpLex_eq_iff cmpChar cmpChar_eq_iff a b

theorem cmpStr_swap (a b : Str) : (cmpStr a b).swap = cmpStr b a :=
  cmpLex_swap cmpChar cmpChar_swap a b

theorem cmpStr_lt_trans {a b c : Str} (h1 : cmpStr a b = .lt) (h2 : cmpStr b c = .lt) :
    cmpStr a c = .lt :=
  cmpLex_lt_trans cmpChar cmpChar_eq_iff (fun hx hy => cmpChar_lt_trans hx hy) a b c h1 h2

theorem segCmp_eq_iff (a b : Segment) : Segment.cmp a b = .eq ↔ a = b := by
  cases a <;> cases b <;> simp [Segment.cmp, cmpNat_eq_iff, cmpStr_eq_iff]

theorem segCmp_swap (a b : Segment) : (Segment.cmp a b).swap = Segment.cmp b a := by
  cases a <;> cases b <;>
    first
    | exact cmpNat_swap _ _
    | exact cmpStr_swap _ _
    | rfl

theorem segCmp_lt_trans {a b c : Segment} (h1 : Segment.cmp a b = .lt)
    (h2 : Segment.cmp b c = .lt) : Segment.cmp a c = .lt := by
  cases a <;> cases b <;> cases c <;> simp_all [Segment.cmp]
  · exact cmpNat_lt_trans h1 h2
  · exact cmpStr_lt_trans h1 h2

theorem vercmp_eq_iff (a b : RecipeVersion) :
    RecipeVersion.cmp a b = .eq ↔ a.segments = b.segments :=
  cmpLex_eq_iff Segment.cmp segCmp_eq_iff a.segments b.segments

theorem vercmp_swap (a b : RecipeVersion) :
    (RecipeVersion.cmp a b).swap = RecipeVersion.cmp b a :=
  cmpLex_swap Segment.cmp segCmp_swap a.segments b.segments

theorem vercmp_lt_trans {a b c : RecipeVersion}
    (h1 : RecipeVersion.cmp a b = .lt) (h2 : RecipeVersion.cmp b c = .lt) :
    RecipeVersion.cmp a c = .lt :=
  cmpLex_lt_trans Segment.cmp segCmp_eq_iff
    (fun hx hy => segCmp_lt_trans hx hy) a.segments b.segments c.segments h1 h2

theorem RecipeVersion.keyCmp_eq_iff (a b : RecipeVersion) :
    RecipeVersion.keyCmp a b = .eq ↔ a = b := by
  unfold RecipeVersion.keyCmp
  cases h : RecipeVersion.cmp a b with
  | lt =>
    simp only []
    constructor
    · intro hh; cases hh
    · intro hh; subst hh; rw [(vercmp_eq_iff a a).mpr rfl] at h; cases h
  | gt =>
    simp only []
    constructor
    · intro hh; cases hh
    · intro hh; subst hh; rw [(vercmp_eq_iff a a).mpr rfl] at h; cases h
  | eq =>
    have hseg : a.segments = b.segments := (vercmp_eq_iff a b).mp h
    simp only [cmpStr_eq_iff]
    constructor
    · intro hh
      cases a; cases b
      simp_all
    · intro hh; subst hh; rfl

theorem RecipeVersion.keyCmp_swap (a b : RecipeVersion) :
    (RecipeVersion.keyCmp a b).swap = RecipeVersion.keyCmp b a := by
  unfold RecipeVersion.keyCmp
  have hsw := vercmp_swap a b
  cases h : RecipeVersion.cmp a b with
  | lt => rw [h] at hsw; rw [← hsw]; rfl
  | gt => rw [h] at hsw; rw [← hsw]; rfl
  | eq => rw [h] at hsw; rw [← hsw]; exact cmpStr_swap a.original b.original

theorem RecipeVersion.keyCmp_lt_trans {a b c : RecipeVersion}
    (h1 : RecipeVersion.keyCmp a b = .lt) (h2 : RecipeVersion.keyCmp b c = .lt) :
    RecipeVersion.keyCmp a c = .lt := by
  unfold RecipeVersion.keyCmp at h1 h2 ⊢
  cases hab : RecipeVersion.cmp a b with
  | gt => rw [hab] at h1; cases h1
  | lt =>
    cases hbc : RecipeVersion.cmp b c with
    | gt => rw [hbc] at h2; cases h2
    | lt => rw [vercmp_lt_trans hab hbc]
    | eq =>
      have hseg : b.segments = c.segments := (vercmp_eq_iff b c).mp hbc
      have : RecipeVersion.cmp a c = .lt := by
        unfold RecipeVersion.cmp at hab ⊢
        rw [← hseg]
        exact hab
      rw [this]
  | eq =>
    rw [hab] at h1
    have hseg : a.segments = b.segments := (vercmp_eq_iff a b).mp hab
    cases hbc : RecipeVersion.cmp b c with
    | gt => rw [hbc] at h2; cases h2
    | lt =>
      have : RecipeVersion.cmp a c = .lt := by
        unfold RecipeVersion.cmp at hbc ⊢
        rw [hseg]
        exact hbc
      rw [this]
    | eq =>
      rw [hbc] at h2
      have hseg2 : b.segments = c.segments := (vercmp_eq_iff b c).mp hbc
      have hac : RecipeVersion.cmp a c = .eq := by
        rw [vercmp_eq_iff]
        rw [hseg, hseg2]
      rw [hac]
      exact cmpStr_lt_trans h1 h2

theorem RecipeVersion.keyCmp_ge_trans {a b c : RecipeVersion}
    (h1 : RecipeVersion.keyCmp a b ≠ .lt) (h2 : RecipeVersion.keyCmp b c ≠ .lt) :
    RecipeVersion.keyCmp a c ≠ .lt := by
  cases hab : RecipeVersion.keyCmp a b with
  | lt => exact absurd hab h1
  | eq =>
    have : a = b := (RecipeVersion.keyCmp_eq_iff a b).mp hab
    subst this
    exact h2
  | gt =>
    cases hbc : RecipeVersion.keyCmp b c with
    | lt => exact absurd hbc h2
    | eq =>
      have : b = c := (RecipeVersion.keyCmp_eq_iff b c).mp hbc
      subst this
      exact h1
    | gt =>
      have hba : RecipeVersion.keyCmp b a = .lt := by
        have := RecipeVersion.keyCmp_swap a b
        rw [hab] at this
        exact this.symm
      have hcb : RecipeVersion.keyCmp c b = .lt := by
        have := RecipeVersion.keyCmp_swap b c
        rw [hbc] at this
        exact this.symm
      have hca : RecipeVersion.keyCmp c a = .lt := RecipeVersion.keyCmp_lt_trans hcb hba
      intro hac
      have := RecipeVersion.keyCmp_swap a c
      rw [hac] at this
      rw [hca] at this
      cases this

/-! ## Maximum selection -/

theorem keyCmp_refl (a : RecipeVersion) : RecipeVersion.keyCmp a a = .eq :=
  (RecipeVersion.keyCmp_eq_iff a a).mpr rfl

theorem pickBetter_eq_or (a b : RecipeVersion) :
    pickBetter a b = a ∨ pickBetter a b = b := by
  unfold pickBetter
  split
  · exact Or.inr rfl
  · exact Or.inl rfl

theorem pickBetter_comm (a b : RecipeVersion) : pickBetter a b = pickBetter b a := by
  unfold pickBetter
  cases h : RecipeVersion.keyCmp a b with
  | lt =>
    have hba : RecipeVersion.keyCmp b a = .gt := by
      rw [← RecipeVersion.keyCmp_swap a b, h]; rfl
    simp [h, hba]
  | eq =>
    have hab : a = b := (RecipeVersion.keyCmp_eq_iff a b).mp h
    subst hab
    simp
  | gt =>
    have hba : RecipeVersion.keyCmp b a = .lt := by
      rw [← RecipeVersion.keyCmp_swap a b, h]; rfl
    simp [h, hba]

theorem pickBetter_le_left (a b : RecipeVersion) :
    RecipeVersion.keyCmp a (pickBetter a b) ≠ .gt := by
  unfold pickBetter
  split
  · rename_i h
    rw [h]
    intro hh; cases hh
  · rw [keyCmp_refl]
    intro hh; cases hh

theorem pickBetter_le_right (a b : RecipeVersion) :
    RecipeVersion.keyCmp b (pickBetter a b) ≠ .gt := by
  rw [pickBetter_comm]
  exact pickBetter_le_left b a

theorem keyCmp_le_trans {a b c : RecipeVersion}
    (h1 : RecipeVersion.keyCmp a b ≠ .gt) (h2 : RecipeVersion.keyCmp b c ≠ .gt) :
    RecipeVersion.keyCmp a c ≠ .gt := by
  have h1s : RecipeVersion.keyCmp b a ≠ .lt := by
    intro hh
    apply h1
    rw [← RecipeVersion.keyCmp_swap b a, hh]
    rfl
  have h2s : RecipeVersion.keyCmp c b ≠ .lt := by
    intro hh
    apply h2
    rw [← RecipeVersion.keyCmp_swap c b, hh]
    rfl
  have h3 : RecipeVersion.keyCmp c a ≠ .lt := RecipeVersion.keyCmp_ge_trans h2s h1s
  intro hh
  apply h3
  rw [← RecipeVersion.keyCmp_swap a c, hh]
  rfl

theorem keyCmp_not_lt_iff {a b : RecipeVersion} :
    RecipeVersion.keyCmp a b ≠ .lt ↔ RecipeVersion.keyCmp b a ≠ .gt := by
  constructor
  · intro h hh
    apply h
    rw [← RecipeVersion.keyCmp_swap b a, hh]
    rfl
  · intro h hh
    apply h
    rw [← RecipeVersion.keyCmp_swap a b, hh]
    rfl

theorem pickBetter_assoc (a b c : RecipeVersion) :
    pickBetter (pickBetter a b) c = pickBetter a (pickBetter b c) := by
  by_cases h1 : RecipeVersion.keyCmp a b = .lt
  · have e1 : pickBetter a b = b := by unfold pickBetter; rw [if_pos h1]
    rw [e1]
    by_cases h2 : RecipeVersion.keyCmp b c = .lt
    · have e2 : pickBetter b c = c := by unfold pickBetter; rw [if_pos h2]
      rw [e2]
      have h3 : RecipeVersion.keyCmp a c = .lt := RecipeVersion.keyCmp_lt_trans h1 h2
      unfold pickBetter
      rw [if_pos h3]
    · have e2 : pickBetter b c = b := by unfold pickBetter; rw [if_neg h2]
      rw [e2]
      unfold pickBetter
      rw [if_pos h1]
  · have e1 : pickBetter a b = a := by unfold pickBetter; rw [if_neg h1]
    rw [e1]
    by_cases h2 : RecipeVersion.keyCmp b c = .lt
    · have e2 : pickBetter b c = c := by unfold pickBetter; rw [if_pos h2]
      rw [e2]
    · have e2 : pickBetter b c = b := by unfold pickBetter; rw [if_neg h2]
      rw [e2, e1]
      have h3 : RecipeVersion.keyCmp a c ≠ .lt := by
        rw [keyCmp_not_lt_iff]
        exact keyCmp_le_trans (keyCmp_not_lt_iff.mp h2) (keyCmp_not_lt_iff.mp h1)
      unfold pickBetter
      rw [if_neg h3]

theorem pickBetterO_right_comm (z : Option RecipeVersion) (a b : RecipeVersion) :
    pickBetterO (pickBetterO z a) b = pickBetterO (pickBetterO z b) a := by
  cases z with
  | none => simp only [pickBetterO]; rw [pickBetter_comm]
  | some x =>
    simp only [pickBetterO]
    rw [pickBetter_assoc, pickBetter_assoc, pickBetter_comm a b]

theorem selectMax_perm {l l2 : List RecipeVersion} (p : l.Perm l2) :
    selectMax l = selectMax l2 :=
  p.foldl_eq' (fun x _ y _ z => pickBetterO_right_comm z x y) none

theorem foldl_pickBetterO_some (l : List RecipeVersion) (a : RecipeVersion) :
    l.foldl pickBetterO (some a) = some (l.foldl pickBetter a) := by
  induction l generalizing a with
  | nil => rfl
  | cons x xs ih => simp only [List.foldl_cons, pickBetterO, ih]

theorem selectMax_cons (v : RecipeVersion) (vs : List RecipeVersion) :
    selectMax (v :: vs) = some (vs.foldl pickBetter v) := by
  unfold selectMax
  simp only [List.foldl_cons, pickBetterO, foldl_pickBetterO_some]

theorem foldl_pickBetter_mem (l : List RecipeVersion) (a : RecipeVersion) :
    l.foldl pickBetter a = a ∨ l.foldl pickBetter a ∈ l := by
  induction l generalizing a with
  | nil => exact Or.inl rfl
  | cons x xs ih =>
    simp only [List.foldl_cons]
    rcases ih (pickBetter a x) with h | h
    · rw [h]
      rcases pickBetter_eq_or a x with h2 | h2
      · exact Or.inl h2
      · exact Or.inr (by rw [h2]; exact List.mem_cons_self x xs)
    · exact Or.inr (List.mem_cons_of_mem x h)

theorem foldl_pickBetter_ge (l : List RecipeVersion) (a : RecipeVersion) :
    RecipeVersion.keyCmp a (l.foldl pickBetter a) ≠ .gt
      ∧ ∀ v ∈ l, RecipeVersion.keyCmp v (l.foldl pickBetter a) ≠ .gt := by
  induction l generalizing a with
  | nil =>
    refine ⟨?_, by intro v hv; cases hv⟩
    rw [List.foldl_nil, keyCmp_refl]
    intro hh; cases hh
  | cons x xs ih =>
    simp only [List.foldl_cons]
    obtain ⟨ih1, ih2⟩ := ih (pickBetter a x)
    refine ⟨keyCmp_le_trans (pickBetter_le_left a x) ih1, ?_⟩
    intro v hv
    rcases List.mem_cons.mp hv with h | h
    · subst h
      exact keyCmp_le_trans (pickBetter_le_right a v) ih1
    · exact ih2 v h

theorem selectMax_spec {l : List RecipeVersion} (h : l ≠ []) :
    ∃ m, selectMax l = some m ∧ m ∈ l ∧ ∀ v ∈ l, RecipeVersion.keyCmp v m ≠ .gt := by
  cases l with
  | nil => exact absurd rfl h
  | cons v vs =>
    refine ⟨vs.foldl pickBetter v, selectMax_cons v vs, ?_, ?_⟩
    · rcases foldl_pickBetter_mem vs v with h2 | h2
      · rw [h2]; exact List.mem_cons_self v vs
      · exact List.mem_cons_of_mem v h2
    · intro w hw
      obtain ⟨g1, g2⟩ := foldl_pickBetter_ge vs v
      rcases List.mem_cons.mp hw with h2 | h2
      · subst h2; exact g1
      · exact g2 w h2

theorem selectMax_eq_none {l : List RecipeVersion} (h : selectMax l = none) : l = [] := by
  cases l with
  | nil => rfl
  | cons v vs => rw [selectMax_cons] at h; cases h

/-! ## Claim theorems -/

/-- C4: for every recipe script text and target architecture string, the
build fingerprint `_compute_binary_hash` equals the sha256 hex digest of the
recipe script bytes concatenated with the architecture string's bytes, and
two computations over identical recipe bytes and identical architecture
always yield the identical hex digest. -/
theorem fingerprint_is_sha256_of_concatenation
    (package_script target_architecture script2 arch2 : Str)
    (hs : script2 = package_script) (ha : arch2 = target_architecture) :
    _compute_binary_hash package_script target_architecture
        = hexOfBytes (sha256Bytes
            (utf8Encode package_script ++ utf8Encode target_architecture))
      ∧ _compute_binary_hash script2 arch2
        = _compute_binary_hash package_script target_architecture := by
  subst hs ha
  refine ⟨?_, rfl⟩
  unfold _compute_binary_hash HashObject.hexdigest HashObject.update HashObject.new
  simp

/-- Witness for C4: the fingerprint property at one concrete recipe text and
architecture. -/
theorem fingerprint_is_sha256_of_concatenation_witness :
    _compute_binary_hash "name=hello".data "x86_64".data
        = hexOfBytes (sha256Bytes
            (utf8Encode "name=hello".data ++ utf8Encode "x86_64".data))
      ∧ _compute_binary_hash "name=hello".data "x86_64".data
        = _compute_binary_hash "name=hello".data "x86_64".data :=
  fingerprint_is_sha256_of_concatenation "name=hello".data "x86_64".data
    "name=hello".data "x86_64".data rfl rfl

/-- C5: whenever the sources list and the sha256sums list have different
lengths, `RecipeDescription` construction raises at construction time — it
yields the length-mismatch error and never an object. -/
theorem description_length_mismatch_fails (name version release url : Str)
    (licenses dependencies build_dependencies sources sha256sums available_options :
      List Str)
    (h : sources.length ≠ sha256sums.length) :
    RecipeDescription.init name version release url licenses dependencies
        build_dependencies sources sha256sums available_options
      = .error (lengthMismatchMsg sources.length sha256sums.length)
    ∧ ∀ d, RecipeDescription.init name version release url licenses dependencies
        build_dependencies sources sha256sums available_options ≠ .ok d := by
  unfold RecipeDescription.init
  rw [if_pos h]
  exact ⟨rfl, fun d hh => by cases hh⟩

/-- Witness for C5: construction with two sources and one checksum fails. -/
theorem description_length_mismatch_fails_witness :
    RecipeDescription.init "p".data "1".data "1".data "u".data [] [] []
        ["a".data, "b".data] ["x".data] []
      = .error (lengthMismatchMsg ["a".data, "b".data].length ["x".data].length)
    ∧ ∀ d, RecipeDescription.init "p".data "1".data "1".data "u".data [] [] []
        ["a".data, "b".data] ["x".data] [] ≠ .ok d :=
  description_length_mismatch_fails "p".data "1".data "1".data "u".data [] [] []
    ["a".data, "b".data] ["x".data] [] (by decide)

/-- C6: for every field name, if the sourced recipe script defines both a
variable and a function with that name, field extraction fails with the
ambiguous-field error, regardless of the contents of the two definitions and
of the array flag. -/
theorem ambiguous_field_always_fails (ctx : ShellContext) (field_name fout : Str)
    (vval : List Str) (is_array : Bool)
    (hf : ctx.functions field_name = some fout)
    (hv : ctx.vars field_name = some vval) :
    _read_package_variable ctx field_name is_array
      = .error (ambiguousFieldMsg field_name) := by
  unfold _read_package_variable
  rw [hf, hv]

/-- Witness for C6: a recipe defining both a variable and a function named
`version` fails extraction of `version`. -/
theorem ambiguous_field_always_fails_witness :
    _read_package_variable ctxAmbiguous "version".data false
      = .error (ambiguousFieldMsg "version".data) :=
  ambiguous_field_always_fails ctxAmbiguous "version".data "1.0".data
    ["2.0".data] false rfl rfl

/-- C1: for every non-empty candidate version set with a (non-empty) present
requested version string and at least one prefix-compatible candidate,
`find_closest_version_or_none` returns a maximum among the candidates whose
leading dotted segments pairwise equal the requested string's segments; in
particular, requesting `2.3` against 2.2.9, 2.3.0, 2.3.5, 2.4.0 returns
2.3.5. -/
theorem find_closest_requested_returns_max_qualifying
    (versions : List RecipeVersion) (r : Str)
    (hne : versions ≠ []) (hr : r ≠ [])
    (hq : qualifyingCandidates versions r ≠ []) :
    (∃ m, find_closest_version_or_none versions (some r) = some m
      ∧ m ∈ qualifyingCandidates versions r
      ∧ ∀ v ∈ qualifyingCandidates versions r, RecipeVersion.cmp v m ≠ .gt)
    ∧ find_closest_version_or_none exampleCandidates (some "2.3".data)
        = some (RecipeVersion.from_string "2.3.5".data) := by
  constructor
  · obtain ⟨m, hm1, hm2, hm3⟩ := selectMax_spec hq
    refine ⟨m, ?_, hm2, ?_⟩
    · show (if r = [] then selectMax versions
          else selectMax (qualifyingCandidates versions r)) = some m
      rw [if_neg hr]
      exact hm1
    · intro v hv hgt
      apply hm3 v hv
      unfold RecipeVersion.keyCmp
      rw [hgt]
  · decide

/-- Witness for C1: the property instantiated at the spec's worked example. -/
theorem find_closest_requested_returns_max_qualifying_witness :
    (∃ m, find_closest_version_or_none exampleCandidates (some "2.3".data) = some m
      ∧ m ∈ qualifyingCandidates exampleCandidates "2.3".data
      ∧ ∀ v ∈ qualifyingCandidates exampleCandidates "2.3".data,
          RecipeVersion.cmp v m ≠ .gt)
    ∧ find_closest_version_or_none exampleCandidates (some "2.3".data)
        = some (RecipeVersion.from_string "2.3.5".data) :=
  find_closest_requested_returns_max_qualifying exampleCandidates "2.3".data
    (by decide) (by decide) (by decide)

/-- C7: for every non-empty candidate version set with an absent or empty
requested version, selection returns a maximum of the candidate set, and the
selected value is unchanged under every permutation of the candidate set. -/
theorem find_closest_no_request_returns_max
    (versions : List RecipeVersion) (req : Option Str)
    (hne : versions ≠ []) (hreq : req = none ∨ req = some []) :
    ∃ m, find_closest_version_or_none versions req = some m
      ∧ m ∈ versions
      ∧ (∀ v ∈ versions, RecipeVersion.cmp v m ≠ .gt)
      ∧ ∀ versions2 : List RecipeVersion, versions.Perm versions2 →
          find_closest_version_or_none versions2 req = some m := by
  obtain ⟨m, hm1, hm2, hm3⟩ := selectMax_spec hne
  have heval : ∀ l : List RecipeVersion, find_closest_version_or_none l req = selectMax l := by
    intro l
    rcases hreq with h | h <;> subst h <;> simp [find_closest_version_or_none]
  refine ⟨m, by rw [heval]; exact hm1, hm2, ?_, ?_⟩
  · intro v hv hgt
    apply hm3 v hv
    unfold RecipeVersion.keyCmp
    rw [hgt]
  · intro vs2 hperm
    rw [heval, ← selectMax_perm hperm]
    exact hm1

/-- Witness for C7: maximum selection and permutation invariance at a
concrete candidate set with no requested version. -/
theorem find_closest_no_request_returns_max_witness :
    ∃ m, find_closest_version_or_none exampleCandidates none = some m
      ∧ m ∈ exampleCandidates
      ∧ (∀ v ∈ exampleCandidates, RecipeVersion.cmp v m ≠ .gt)
      ∧ ∀ versions2 : List RecipeVersion, exampleCandidates.Perm versions2 →
          find_closest_version_or_none versions2 none = some m :=
  find_closest_no_request_returns_max exampleCandidates none (by decide) (Or.inl rfl)

/-- C9: for every well-formed atom naming a package (non-empty, at most one
slash, not an existing filesystem path), with the cache root present and at
least one configured repository, if no candidate recipe files are found or
no candidate satisfies the requested version, `find_recipe` returns the
"not found" result (`none`) and does not raise. -/
theorem lookup_not_found_is_none_not_error
    (fs : FileSystem) (cfg : CacheConfiguration) (name : Str)
    (hcache : fs.pathExists cfg.repository_cache_path = true)
    (hname : name ≠ [])
    (hnp : fs.pathExists name = false)
    (hparts : (splitOn '/' name).length ≤ 2)
    (hrepo : cfg.repositories ≠ [])
    (hnomatch :
      gatherCandidates fs cfg ((splitOn '/' name).headD []) = []
      ∨ find_closest_version_or_none
          ((gatherCandidates fs cfg ((splitOn '/' name).headD [])).map
            PackageCandidate.version)
          (if (splitOn '/' name).length = 2
            then some ((splitOn '/' name).getD 1 []) else none)
        = none) :
    find_recipe fs cfg name = .ok none := by
  unfold find_recipe
  rw [hcache, if_neg (by simp), if_neg hname, hnp]
  simp only [Bool.false_eq_true, if_false]
  unfold _find_recipe_by_name
  rw [if_neg (by omega)]
  rw [if_neg (by simp [List.length_eq_zero]; exact hrepo)]
  rcases hnomatch with h | h
  · rw [h]
    rfl
  · by_cases hemp : (gatherCandidates fs cfg ((splitOn '/' name).headD [])).isEmpty
    · rw [if_pos hemp]
    · rw [if_neg hemp, h]

/-- Witness for C9: a configured repository with no recipe directory for the
requested package yields `ok none`. -/
theorem lookup_not_found_is_none_not_error_witness :
    find_recipe fsEmptyRepos cfgOneRepo "foo".data = .ok none :=
  lookup_not_found_is_none_not_error fsEmptyRepos cfgOneRepo "foo".data
    (by decide) (by decide) (by decide) (by decide) (by decide) (Or.inl (by decide))

/-- C10 counterexample: the claim quantifies over every atom that is not an
existing filesystem path, but with an empty repository list the empty atom
makes `find_recipe` return the `none` "not found" result without raising,
and a three-part atom raises the malformed-atom error rather than the
no-repositories error. -/
theorem empty_repositories_counterexample :
    cfgEmptyRepos.repositories = []
    ∧ fsEmptyRepos.pathExists [] = false
    ∧ find_recipe fsEmptyRepos cfgEmptyRepos [] = .ok none
    ∧ fsEmptyRepos.pathExists "a/b/c".data = false
    ∧ find_recipe fsEmptyRepos cfgEmptyRepos "a/b/c".data = .error invalidFormatMsg
    ∧ invalidFormatMsg ≠ noReposMsg :=
  ⟨rfl, by decide, by rfl, by decide, by rfl, by decide⟩

/-- C10 (amended): for every non-empty atom that is not an existing
filesystem path and splits into at most two slash-separated parts, when the
configured repository list is empty, `find_recipe` raises the
no-repositories error before searching, instead of returning `none`. -/
theorem empty_repositories_raises
    (fs : FileSystem) (cfg : CacheConfiguration) (name : Str)
    (hcache : fs.pathExists cfg.repository_cache_path = true)
    (hname : name ≠ [])
    (hnp : fs.pathExists name = false)
    (hparts : (splitOn '/' name).length ≤ 2)
    (hrepo : cfg.repositories = []) :
    find_recipe fs cfg name = .error noReposMsg := by
  unfold find_recipe
  rw [hcache, if_neg (by simp), if_neg hname, hnp]
  simp only [Bool.false_eq_true, if_false]
  unfold _find_recipe_by_name
  rw [if_neg (by omega)]
  rw [if_pos (by rw [hrepo]; rfl)]

/-- Witness for C10's amended claim: a non-empty well-formed atom with no
repositories configured raises the no-repositories error. -/
theorem empty_repositories_raises_witness :
    find_recipe fsEmptyRepos cfgEmptyRepos "foo".data = .error noReposMsg :=
  empty_repositories_raises fsEmptyRepos cfgEmptyRepos "foo".data
    (by decide) (by decide) (by decide) (by decide) rfl

/-- C8 counterexample: with two candidates whose versions parse equal
(`1.0` and `1.00`) but whose original strings differ, the pool order lists
the lexicographically earlier original first and lookup returns that first
candidate's path — not the path of the candidate with the lexicographically
later original string, contradicting the claimed tie-break. -/
theorem tie_prefers_first_pool_candidate_counterexample :
    RecipeVersion.cmp (RecipeVersion.from_string "1.0".data)
        (RecipeVersion.from_string "1.00".data) = .eq
    ∧ "1.0".data ≠ "1.00".data
    ∧ cmpStr "1.0".data "1.00".data = .lt
    ∧ gatherCandidates fsTie cfgTie "foo".data
        = [⟨RecipeVersion.from_string "1.0".data,
              "/cache/r1/core/foo/foo-1.0.recipe".data⟩,
           ⟨RecipeVersion.from_string "1.00".data,
              "/cache/r1/core/foo/foo-1.00.recipe".data⟩]
    ∧ find_recipe fsTie cfgTie "foo".data
        = .ok (some "/cache/r1/core/foo/foo-1.0.recipe".data)
    ∧ ("/cache/r1/core/foo/foo-1.0.recipe".data : Str)
        ≠ "/cache/r1/core/foo/foo-1.00.recipe".data :=
  ⟨by decide, by decide, by decide, by decide, by rfl, by decide⟩

/-- C8 (amended): when the selection function returns a version, recipe
lookup returns the path of the *first* candidate in pool iteration order
whose parsed version compares equal to the selected version — ties between
literal-different, semantically equal candidates are resolved by pool order,
which makes the selected path deterministic given the iteration order. -/
theorem tie_prefers_first_pool_candidate
    (fs : FileSystem) (cfg : CacheConfiguration) (name : Str)
    (hcache : fs.pathExists cfg.repository_cache_path = true)
    (hname : name ≠ [])
    (hnp : fs.pathExists name = false)
    (hone : splitOn '/' name = [name])
    (hrepo : cfg.repositories ≠ [])
    (v : RecipeVersion)
    (hv : find_closest_version_or_none
        ((gatherCandidates fs cfg name).map PackageCandidate.version) none = some v) :
    find_recipe fs cfg name
      = .ok (Option.map PackageCandidate.path
          ((gatherCandidates fs cfg name).find?
            (fun c => RecipeVersion.semEq c.version v))) := by
  unfold find_recipe
  rw [hcache, if_neg (by simp), if_neg hname, hnp]
  simp only [Bool.false_eq_true, if_false]
  unfold _find_recipe_by_name
  rw [hone]
  dsimp only
  have h2 : ¬([name].length > 2) := by simp
  have h3 : ¬([name].length = 2) := by simp
  have h4 : ¬(cfg.repositories.length = 0) := by
    simpa [List.length_eq_zero] using hrepo
  rw [if_neg h2, if_neg h3, if_neg h4]
  simp only [List.headD_cons]
  by_cases hemp : (gatherCandidates fs cfg name).isEmpty = true
  · exfalso
    rw [List.isEmpty_iff] at hemp
    rw [hemp] at hv
    simp [find_closest_version_or_none, selectMax] at hv
  · rw [if_neg hemp, hv]
    dsimp only
    cases hfind : (gatherCandidates fs cfg name).find?
        (fun c => RecipeVersion.semEq c.version v) <;> rfl

/-- Witness for C8's amended claim: at the two-candidate tie fixture, lookup
returns the first pool candidate's path. -/
theorem tie_prefers_first_pool_candidate_witness :
    find_recipe fsTie cfgTie "foo".data
      = .ok (Option.map PackageCandidate.path
          ((gatherCandidates fsTie cfgTie "foo".data).find?
            (fun c => RecipeVersion.semEq c.version
              (RecipeVersion.from_string "1.00".data)))) :=
  tie_prefers_first_pool_candidate fsTie cfgTie "foo".data
    (by decide) (by decide) (by decide) (by decide) (by decide)
    (RecipeVersion.from_string "1.00".data) (by decide)

/-! ## Pipeline stage lemmas -/

theorem andThen_none {st : BuildState} {f : BuildState → Option Str × BuildState} :
    andThen (none, st) f = f st := rfl

theorem andThen_some {e : Str} {st : BuildState}
    {f : BuildState → Option Str × BuildState} :
    andThen (some e, st) f = (some e, st) := rfl

theorem create_workspace_ok (cfg : BuildConfiguration) (st : BuildState)
    (h : st.workspaceExists = true → cfg.package_delete_workspace = true) :
    _create_workspace_directories cfg st
      = (none, { st with
          workspaceExists := true
          sourceDirExists := true
          buildDirExists := true
          packageDirExists := true
          events := st.events ++ [.workspaceCreated] }) := by
  unfold _create_workspace_directories
  rw [if_neg ?hcond]
  case hcond =>
    rintro ⟨h1, h2⟩
    rw [h h1] at h2
    cases h2
  rfl

theorem call_script_snd (world : BuildWorld) (fn : Str) (st : BuildState) :
    (_call_script_function world fn st).2
      = { st with events := st.events ++ [.hookCalled fn] } := by
  unfold _call_script_function
  split <;> rfl

theorem call_script_fst_ok (world : BuildWorld) (fn : Str) (st : BuildState)
    (h : world.hookExitOk fn = true) :
    (_call_script_function world fn st).1 = none := by
  unfold _call_script_function
  rw [if_pos h]

theorem call_script_fst_fail (world : BuildWorld) (fn : Str) (st : BuildState)
    (h : world.hookExitOk fn = false) :
    ((_call_script_function world fn st).1).isSome = true := by
  unfold _call_script_function
  rw [if_neg (by rw [h]; intro hh; cases hh)]
  rfl

theorem download_source_snd (world : BuildWorld) (cfg : BuildConfiguration)
    (rd s sum : Str) (st : BuildState) :
    ∃ d, (_download_source_file world cfg rd s sum st).2
        = { st with events := st.events ++ d }
      ∧ ∀ fn, BuildEvent.hookCalled fn ∉ d := by
  unfold _download_source_file
  dsimp only
  by_cases h1 : world.hasUrlScheme s = true
  · rw [if_pos h1]
    exact ⟨[.sourceFetched s], by split <;> rfl, by intro fn; simp⟩
  · rw [if_neg h1]
    by_cases h2 : world.isFilePath s = true
    · rw [if_pos h2]
      exact ⟨[.sourceCopied s], by split <;> rfl, by intro fn; simp⟩
    · rw [if_neg h2]
      by_cases h3 : world.isFilePath (pathJoin rd s) = true
      · rw [if_pos h3]
        exact ⟨[.sourceCopied s], by split <;> rfl, by intro fn; simp⟩
      · rw [if_neg h3]
        refine ⟨[], by split <;> simp, by intro fn; simp⟩

theorem download_source_error_of_mismatch (world : BuildWorld)
    (cfg : BuildConfiguration) (rd s sum : Str) (st : BuildState)
    (hm : world.fileHash (pathJoin (source_directory cfg) (basename s)) ≠ sum) :
    ∃ e st1, _download_source_file world cfg rd s sum st = (.error e, st1) := by
  unfold _download_source_file
  dsimp only
  rw [if_pos hm]
  exact ⟨_, _, rfl⟩

theorem download_source_ok_of_match (world : BuildWorld)
    (cfg : BuildConfiguration) (rd s sum : Str) (st : BuildState)
    (hm : world.fileHash (pathJoin (source_directory cfg) (basename s)) = sum) :
    ∃ st1, _download_source_file world cfg rd s sum st
      = (.ok (pathJoin (source_directory cfg) (basename s)), st1) := by
  unfold _download_source_file
  dsimp only
  rw [if_neg (by rw [hm]; exact fun hh => hh rfl)]
  exact ⟨_, rfl⟩

theorem sourcePairsLoop_snd (world : BuildWorld) (cfg : BuildConfiguration) (rd : Str) :
    ∀ (pairs : List (Str × Str)) (st : BuildState),
      ∃ d, (sourcePairsLoop world cfg rd pairs st).2
          = { st with events := st.events ++ d }
        ∧ ∀ fn, BuildEvent.hookCalled fn ∉ d := by
  intro pairs
  induction pairs with
  | nil =>
    intro st
    exact ⟨[], by simp [sourcePairsLoop], by intro fn; simp⟩
  | cons p rest ih =>
    intro st
    obtain ⟨s, sum⟩ := p
    obtain ⟨d0, hd0, hd0n⟩ := download_source_snd world cfg rd s sum st
    simp only [sourcePairsLoop]
    cases hdl : _download_source_file world cfg rd s sum st with
    | mk r st1 =>
      rw [hdl] at hd0
      dsimp only at hd0
      cases r with
      | error e => exact ⟨d0, hd0, hd0n⟩
      | ok fpath =>
        dsimp only
        by_cases htar : world.isTarfile fpath = true
        · rw [if_pos htar]
          obtain ⟨d1, hd1, hd1n⟩ := ih (st1.log (.tarExtracted fpath))
          refine ⟨d0 ++ [.tarExtracted fpath] ++ d1, ?_, ?_⟩
          · rw [hd1, hd0]
            simp [BuildState.log, List.append_assoc]
          · intro fn
            simp only [List.mem_append, List.mem_singleton]
            rintro ((h | h) | h)
            · exact hd0n fn h
            · cases h
            · exact hd1n fn h
        · rw [if_neg htar]
          obtain ⟨d1, hd1, hd1n⟩ := ih st1
          refine ⟨d0 ++ d1, ?_, ?_⟩
          · rw [hd1, hd0]
            simp [List.append_assoc]
          · intro fn
            simp only [List.mem_append]
            rintro (h | h)
            · exact hd0n fn h
            · exact hd1n fn h

theorem sourcePairsLoop_fails_of_mismatch (world : BuildWorld)
    (cfg : BuildConfiguration) (rd : Str) :
    ∀ (pairs : List (Str × Str)) (st : BuildState),
      (∃ p ∈ pairs,
        world.fileHash (pathJoin (source_directory cfg) (basename p.1)) ≠ p.2) →
      ((sourcePairsLoop world cfg rd pairs st).1).isSome = true := by
  intro pairs
  induction pairs with
  | nil => intro st h; simp at h
  | cons p rest ih =>
    intro st h
    obtain ⟨s, sum⟩ := p
    simp only [sourcePairsLoop]
    by_cases hm : world.fileHash (pathJoin (source_directory cfg) (basename s)) ≠ sum
    · obtain ⟨e, st1, heq⟩ := download_source_error_of_mismatch world cfg rd s sum st hm
      rw [heq]
      rfl
    · have hmm : world.fileHash (pathJoin (source_directory cfg) (basename s)) = sum :=
        not_not.mp hm
      obtain ⟨st1, heq⟩ := download_source_ok_of_match world cfg rd s sum st hmm
      rw [heq]
      dsimp only
      apply ih
      rcases h with ⟨p, hp, hne⟩
      rcases List.mem_cons.mp hp with h1 | h1
      · exfalso
        subst h1
        exact hne hmm
      · exact ⟨p, h1, hne⟩

theorem sourcePairsLoop_ok_of_match (world : BuildWorld)
    (cfg : BuildConfiguration) (rd : Str) :
    ∀ (pairs : List (Str × Str)) (st : BuildState),
      (∀ p ∈ pairs,
        world.fileHash (pathJoin (source_directory cfg) (basename p.1)) = p.2) →
      (sourcePairsLoop world cfg rd pairs st).1 = none := by
  intro pairs
  induction pairs with
  | nil => intro st h; rfl
  | cons p rest ih =>
    intro st h
    obtain ⟨s, sum⟩ := p
    simp only [sourcePairsLoop]
    have hmm : world.fileHash (pathJoin (source_directory cfg) (basename s)) = sum :=
      h (s, sum) (List.mem_cons_self _ _)
    obtain ⟨st1, heq⟩ := download_source_ok_of_match world cfg rd s sum st hmm
    rw [heq]
    dsimp only
    apply ih
    intro q hq
    exact h q (List.mem_cons_of_mem _ hq)

theorem handle_sources_snd (world : BuildWorld) (cfg : BuildConfiguration)
    (desc : RecipeDescription) (rd : Str) (st : BuildState) :
    ∃ d, (_handle_sources world cfg desc rd st).2
        = { st with events := st.events ++ d }
      ∧ BuildEvent.hookCalled "handle_build".data ∉ d := by
  unfold _handle_sources
  split
  · exact ⟨[], by simp, by simp⟩
  · split
    · exact ⟨[], by simp, by simp⟩
    · obtain ⟨d0, hd0, hd0n⟩ :=
        sourcePairsLoop_snd world cfg rd (desc.sources.zip desc.sha256sums) st
      cases hl : sourcePairsLoop world cfg rd (desc.sources.zip desc.sha256sums) st with
      | mk r st1 =>
        rw [hl] at hd0
        dsimp only at hd0
        cases r with
        | some e => exact ⟨d0, hd0, hd0n _⟩
        | none =>
          dsimp only
          refine ⟨d0 ++ [.hookCalled "handle_sources".data], ?_, ?_⟩
          · rw [call_script_snd, hd0]
            simp [List.append_assoc]
          · simp only [List.mem_append, List.mem_singleton]
            rintro (h | h)
            · exact hd0n _ h
            · injection h with hf
              have : ("handle_sources".data : Str) ≠ "handle_build".data := by decide
              exact this hf.symm

theorem handle_sources_fails_of_mismatch (world : BuildWorld)
    (cfg : BuildConfiguration) (desc : RecipeDescription) (rd : Str) (st : BuildState)
    (hmis : ∃ p ∈ desc.sources.zip desc.sha256sums,
        world.fileHash (pathJoin (source_directory cfg) (basename p.1)) ≠ p.2) :
    ((_handle_sources world cfg desc rd st).1).isSome = true := by
  unfold _handle_sources
  split
  · rfl
  · split
    · exfalso
      rename_i hzero
      obtain ⟨p, hp, _⟩ := hmis
      have : desc.sources = [] := List.length_eq_zero.mp hzero
      rw [this] at hp
      simp at hp
    · have hfail := sourcePairsLoop_fails_of_mismatch world cfg rd
        (desc.sources.zip desc.sha256sums) st hmis
      cases hl : sourcePairsLoop world cfg rd (desc.sources.zip desc.sha256sums) st with
      | mk r st1 =>
        rw [hl] at hfail
        cases r with
        | some e => rfl
        | none => cases hfail

theorem handle_sources_ok (world : BuildWorld) (cfg : BuildConfiguration)
    (desc : RecipeDescription) (rd : Str) (st : BuildState)
    (hlen : desc.sources.length = desc.sha256sums.length)
    (hmatch : ∀ p ∈ desc.sources.zip desc.sha256sums,
        world.fileHash (pathJoin (source_directory cfg) (basename p.1)) = p.2)
    (hsok : world.hookExitOk "handle_sources".data = true) :
    (_handle_sources world cfg desc rd st).1 = none := by
  unfold _handle_sources
  rw [if_neg (by rw [hlen]; exact fun hh => hh rfl)]
  split
  · rfl
  · have hloop := sourcePairsLoop_ok_of_match world cfg rd
      (desc.sources.zip desc.sha256sums) st hmatch
    cases hl : sourcePairsLoop world cfg rd (desc.sources.zip desc.sha256sums) st with
    | mk r st1 =>
      rw [hl] at hloop
      subst hloop
      dsimp only
      exact call_script_fst_ok world _ st1 hsok

theorem delete_workspace_removes (cfg : BuildConfiguration) (st : BuildState)
    (hkeep : cfg.keep_build_directory = false) :
    ((_delete_workspace_directories cfg st).2).workspaceExists = false := by
  unfold _delete_workspace_directories
  split
  · rename_i h
    exact h
  · rw [if_neg (by simp [hkeep])]
    rfl

theorem delete_workspace_keeps (cfg : BuildConfiguration) (st : BuildState)
    (hkeep : cfg.keep_build_directory = true) :
    (_delete_workspace_directories cfg st).2 = st := by
  unfold _delete_workspace_directories
  split
  · rfl
  · rfl

theorem delete_workspace_events (cfg : BuildConfiguration) (st : BuildState) :
    ∃ d, ((_delete_workspace_directories cfg st).2).events = st.events ++ d
      ∧ BuildEvent.hookCalled "handle_build".data ∉ d := by
  unfold _delete_workspace_directories
  split
  · exact ⟨[], by simp, by simp⟩
  · split
    · exact ⟨[], by simp, by simp⟩
    · exact ⟨[.workspaceDeleted], rfl, by simp⟩

/-- C2: for every recipe one of whose materialized source files has a
computed sha256 digest different from its positionally declared checksum
(and whose workspace creation is not itself blocked), `create_package`
fails, and the `handle_build` hook is never invoked — no build stage runs on
unverified input. -/
theorem hash_mismatch_aborts_before_build
    (world : BuildWorld) (cfg : BuildConfiguration) (desc : RecipeDescription)
    (recipe_directory : Str) (ws src bld pkg : Bool)
    (hcreate : ws = true → cfg.package_delete_workspace = true)
    (hmis : ∃ p ∈ desc.sources.zip desc.sha256sums,
        world.fileHash (pathJoin (source_directory cfg) (basename p.1)) ≠ p.2) :
    ((create_package world cfg desc recipe_directory
        (BuildState.initial ws src bld pkg)).1).isSome = true
    ∧ BuildEvent.hookCalled "handle_build".data
        ∉ (create_package world cfg desc recipe_directory
            (BuildState.initial ws src bld pkg)).2.events := by
  have hcw := create_workspace_ok cfg (BuildState.initial ws src bld pkg)
    (fun h => hcreate h)
  obtain ⟨d, hd, hdn⟩ := handle_sources_snd world cfg desc recipe_directory
    { BuildState.initial ws src bld pkg with
        workspaceExists := true
        sourceDirExists := true
        buildDirExists := true
        packageDirExists := true
        events := (BuildState.initial ws src bld pkg).events ++ [.workspaceCreated] }
  have hfail := handle_sources_fails_of_mismatch world cfg desc recipe_directory
    { BuildState.initial ws src bld pkg with
        workspaceExists := true
        sourceDirExists := true
        buildDirExists := true
        packageDirExists := true
        events := (BuildState.initial ws src bld pkg).events ++ [.workspaceCreated] }
    hmis
  cases hhs : _handle_sources world cfg desc recipe_directory
      { BuildState.initial ws src bld pkg with
          workspaceExists := true
          sourceDirExists := true
          buildDirExists := true
          packageDirExists := true
          events := (BuildState.initial ws src bld pkg).events ++ [.workspaceCreated] } with
  | mk r st1 =>
    rw [hhs] at hd hfail
    dsimp only at hd hfail
    cases r with
    | none => cases hfail
    | some e =>
      have hbody : createPackageBody world cfg desc recipe_directory
          (BuildState.initial ws src bld pkg) = (some e, st1) := by
        unfold createPackageBody
        rw [hcw, andThen_none, hhs]
        rfl
      have hcp : create_package world cfg desc recipe_directory
          (BuildState.initial ws src bld pkg)
          = (some e, (_delete_workspace_directories cfg st1).2) := by
        unfold create_package
        rw [hbody]
      rw [hcp]
      refine ⟨rfl, ?_⟩
      obtain ⟨d2, hd2, hd2n⟩ := delete_workspace_events cfg st1
      rw [hd2, hd]
      dsimp only [BuildState.initial]
      simp only [List.nil_append, List.mem_append, List.mem_singleton]
      rintro ((h | h) | h)
      · cases h
      · exact hdn h
      · exact hd2n h

/-- Witness for C2: a recipe with one source whose declared checksum `abc`
differs from the world's computed hash aborts before any build hook. -/
theorem hash_mismatch_aborts_before_build_witness :
    ((create_package worldBadHash cfgBuildDefault descOneSource "/r".data
        (BuildState.initial false false false false)).1).isSome = true
    ∧ BuildEvent.hookCalled "handle_build".data
        ∉ (create_package worldBadHash cfgBuildDefault descOneSource "/r".data
            (BuildState.initial false false false false)).2.events :=
  hash_mismatch_aborts_before_build worldBadHash cfgBuildDefault descOneSource
    "/r".data false false false false (by intro h; cases h) (by decide)

/-- C3: with default settings, after any `create_package` run that succeeds
the workspace root no longer exists; with keep-workspace requested and a
failing `handle_build` hook (all earlier stages succeeding), the run fails
but the workspace root still exists and still contains the source
directory. -/
theorem workspace_cleanup_semantics :
    (∀ (world : BuildWorld) (cfg : BuildConfiguration) (desc : RecipeDescription)
        (rd : Str) (ws src bld pkg : Bool),
      cfg.keep_build_directory = false →
      (create_package world cfg desc rd (BuildState.initial ws src bld pkg)).1 = none →
      (create_package world cfg desc rd
          (BuildState.initial ws src bld pkg)).2.workspaceExists = false)
    ∧ (∀ (world : BuildWorld) (cfg : BuildConfiguration) (desc : RecipeDescription)
        (rd : Str) (ws src bld pkg : Bool),
      cfg.keep_build_directory = true →
      (ws = true → cfg.package_delete_workspace = true) →
      desc.sources.length = desc.sha256sums.length →
      (∀ p ∈ desc.sources.zip desc.sha256sums,
        world.fileHash (pathJoin (source_directory cfg) (basename p.1)) = p.2) →
      world.hookExitOk "handle_sources".data = true →
      world.hookExitOk "handle_build".data = false →
      ((create_package world cfg desc rd (BuildState.initial ws src bld pkg)).1).isSome = true
      ∧ (create_package world cfg desc rd
          (BuildState.initial ws src bld pkg)).2.workspaceExists = true
      ∧ (create_package world cfg desc rd
          (BuildState.initial ws src bld pkg)).2.sourceDirExists = true) := by
  constructor
  · intro world cfg desc rd ws src bld pkg hkeep hsucc
    unfold create_package
    exact delete_workspace_removes cfg _ hkeep
  · intro world cfg desc rd ws src bld pkg hkeep hcreate hlen hmatch hsok hbfail
    have hcw := create_workspace_ok cfg (BuildState.initial ws src bld pkg)
      (fun h => hcreate h)
    obtain ⟨d, hd, hdn⟩ := handle_sources_snd world cfg desc rd
      { BuildState.initial ws src bld pkg with
          workspaceExists := true
          sourceDirExists := true
          buildDirExists := true
          packageDirExists := true
          events := (BuildState.initial ws src bld pkg).events ++ [.workspaceCreated] }
    have hok := handle_sources_ok world cfg desc rd
      { BuildState.initial ws src bld pkg with
          workspaceExists := true
          sourceDirExists := true
          buildDirExists := true
          packageDirExists := true
          events := (BuildState.initial ws src bld pkg).events ++ [.workspaceCreated] }
      hlen hmatch hsok
    cases hhs : _handle_sources world cfg desc rd
        { BuildState.initial ws src bld pkg with
            workspaceExists := true
            sourceDirExists := true
            buildDirExists := true
            packageDirExists := true
            events := (BuildState.initial ws src bld pkg).events ++ [.workspaceCreated] } with
    | mk r st1 =>
      rw [hhs] at hd hok
      dsimp only at hd hok
      subst hok
      have hbfst := call_script_fst_fail world "handle_build".data st1 hbfail
      have hbsnd := call_script_snd world "handle_build".data st1
      cases hb : _call_script_function world "handle_build".data st1 with
      | mk rb stb =>
        rw [hb] at hbfst hbsnd
        dsimp only at hbfst hbsnd
        cases rb with
        | none => cases hbfst
        | some eb =>
          have hbody : createPackageBody world cfg desc rd
              (BuildState.initial ws src bld pkg) = (some eb, stb) := by
            unfold createPackageBody
            rw [hcw, andThen_none, hhs, andThen_none]
            unfold _handle_build
            rw [hb]
            rfl
          have hcp : create_package world cfg desc rd
              (BuildState.initial ws src bld pkg)
              = (some eb, (_delete_workspace_directories cfg stb).2) := by
            unfold create_package
            rw [hbody]
          rw [hcp, delete_workspace_keeps cfg stb hkeep]
          refine ⟨rfl, ?_, ?_⟩
          · rw [hbsnd, hd]
          · rw [hbsnd, hd]

/-- Witness for C3: both cleanup scenarios at concrete worlds — an all-green
run with default settings ends with no workspace, and a failing-build run
with keep-workspace requested ends with the workspace and its source
directory still present. -/
theorem workspace_cleanup_semantics_witness :
    (create_package worldAllOk cfgBuildDefault descNoSources "/r".data
        (BuildState.initial false false false false)).2.workspaceExists = false
    ∧ (((create_package worldBuildFails cfgBuildKeep descNoSources "/r".data
          (BuildState.initial false false false false)).1).isSome = true
      ∧ (create_package worldBuildFails cfgBuildKeep descNoSources "/r".data
          (BuildState.initial false false false false)).2.workspaceExists = true
      ∧ (create_package worldBuildFails cfgBuildKeep descNoSources "/r".data
          (BuildState.initial false false false false)).2.sourceDirExists = true) :=
  ⟨workspace_cleanup_semantics.1 worldAllOk cfgBuildDefault descNoSources "/r".data
      false false false false rfl (by rfl),
   workspace_cleanup_semantics.2 worldBuildFails cfgBuildKeep descNoSources "/r".data
      false false false false rfl (by intro h; cases h) rfl (by intro p hp; cases hp)
      (by decide) (by decide)⟩

end Alpaca
